import Mathlib

/-!
Verification development for the QB_02 repository.

Shallow embedding of the Python sources:
* `src/W201b-web_crawler/src/models/review.py` (Review, Product, ReviewStats)
* `src/W201b-web_crawler/src/models/search_criteria.py` (SearchCriteria)
* `src/W201b-web_crawler/src/scraper/amazon_scraper.py` (criteria filtering)
* `src/W201b-web_crawler/src/scraper/requests_scraper.py` (criteria filtering)
* `src/W201b-web_crawler/src/utils/delay.py` (RateLimiter)
* `src/W301-pdf-rag/retrieval.py` (hybrid_search_rrf)
* `src/W301-pdf-rag/answer_generation.py` (generate_answer)
* `src/W301-pdf-rag/query_enhancement.py` (rag_fusion)
* `src/W601/excel_processor.py` (deduplication_header)

Machine-level conventions: Python ints appearing with `ge=0` pydantic bounds are
modelled as `Nat`; datetimes are modelled as `Int` (only their linear order is
used by the code); Python floats produced by true division are modelled as `ℚ`.
-/

/-- Review model from `models/review.py` (`class Review`).  `rating` carries the
pydantic bound `1 ≤ rating ≤ 5` externally; `date` abstracts a `datetime`. -/
structure Review where
  id : String
  title : String
  text : String
  rating : Nat
  date : Int
  reviewer_name : String
  verified_purchase : Bool := false
  helpful_votes : Nat := 0
  product_asin : String
  product_title : String
  review_url : Option String := none
  images : List String := []
deriving DecidableEq, Repr

/-- The `Literal['date', 'helpful', 'rating']` sort field of `SearchCriteria`. -/
inductive SortBy where
  | date
  | helpful
  | rating
deriving DecidableEq, Repr

/-- The `Literal['asc', 'desc']` sort order of `SearchCriteria`. -/
inductive SortOrder where
  | asc
  | desc
deriving DecidableEq, Repr

/-- The optional `date_range` dictionary of `SearchCriteria`: the code reads the
keys `start_date` and `end_date` with `.get`, so each is optional. -/
structure CriteriaDateRange where
  start_date : Option Int := none
  end_date : Option Int := none
deriving DecidableEq, Repr

/-- SearchCriteria model from `models/search_criteria.py`.  Field bounds and the
two cross-field validators are captured by `SearchCriteria.validB` below. -/
structure SearchCriteria where
  keywords : List String
  category : Option String := none
  min_rating : Option Nat := none
  max_rating : Option Nat := none
  date_range : Option CriteriaDateRange := none
  verified_purchase_only : Bool := false
  min_review_length : Option Nat := none
  max_review_length : Option Nat := none
  min_helpful_votes : Option Nat := none
  max_results : Option Nat := none
  max_pages : Option Nat := some 1
  sort_by : SortBy := SortBy.helpful
  sort_order : SortOrder := SortOrder.desc
deriving DecidableEq, Repr

/-- Pydantic validation of `SearchCriteria` construction: the per-field bounds
(`min_items=1`, `ge=1 le=5` on ratings, `ge=1` on `max_results`,
`ge=1 le=10` on `max_pages`; the `ge=0` bounds are vacuous over `Nat`) together
with `validate_rating_range` and `validate_review_length_range`. -/
def SearchCriteria.validB (c : SearchCriteria) : Bool :=
  decide (1 ≤ c.keywords.length) &&
  (match c.min_rating with
   | none => true
   | some n => decide (1 ≤ n) && decide (n ≤ 5)) &&
  (match c.max_rating with
   | none => true
   | some n => decide (1 ≤ n) && decide (n ≤ 5)) &&
  (match c.max_results with
   | none => true
   | some n => decide (1 ≤ n)) &&
  (match c.max_pages with
   | none => true
   | some n => decide (1 ≤ n) && decide (n ≤ 10)) &&
  (match c.min_rating, c.max_rating with
   | some lo, some hi => decide (lo ≤ hi)
   | _, _ => true) &&
  (match c.min_review_length, c.max_review_length with
   | some lo, some hi => decide (lo ≤ hi)
   | _, _ => true)

/-- Python truthiness of an `Optional[int]` field: `None` and `0` are falsy.
Both scrapers guard every threshold check with `if criteria.<field> and ...`. -/
def pyTruthy : Option Nat → Bool
  | none => false
  | some n => n != 0

/-- The date-range check shared by both scrapers' criteria filters: a review
fails it when `start_date` is present and `review.date < start_date`, or
`end_date` is present and `review.date > end_date`. -/
def dateRangeFails (r : Review) (c : SearchCriteria) : Bool :=
  match c.date_range with
  | none => false
  | some dr =>
    (match dr.start_date with
     | some s => decide (r.date < s)
     | none => false) ||
    (match dr.end_date with
     | some e => decide (e < r.date)
     | none => false)

/-- `AmazonReviewScraper._matches_criteria` from `amazon_scraper.py`
(lines 343-374): the chain of early `return False` guards. -/
def matchesCriteria (r : Review) (c : SearchCriteria) : Bool :=
  if pyTruthy c.min_rating ∧ r.rating < c.min_rating.getD 0 then false
  else if pyTruthy c.max_rating ∧ c.max_rating.getD 0 < r.rating then false
  else if dateRangeFails r c then false
  else if c.verified_purchase_only ∧ ¬ r.verified_purchase then false
  else if pyTruthy c.min_review_length ∧ r.text.length < c.min_review_length.getD 0 then false
  else if pyTruthy c.max_review_length ∧ c.max_review_length.getD 0 < r.text.length then false
  else if pyTruthy c.min_helpful_votes ∧ r.helpful_votes < c.min_helpful_votes.getD 0 then false
  else true

/-- Stable insertion used to model CPython's stable `list.sort`/`sorted`:
an element is inserted after every earlier element `y` with `le y x`. -/
def insSorted (le : α → α → Bool) (x : α) : List α → List α
  | [] => [x]
  | y :: t => if le y x then y :: insSorted le x t else x :: y :: t

/-- Stable sort by a boolean comparator (models Python's stable sort). -/
def pySorted (le : α → α → Bool) (l : List α) : List α :=
  l.foldr (insSorted le) []

/-- The sort key selected by `sort_key_map` in `_apply_filters` /
by the `sort_by` dispatch in `_apply_final_processing`. -/
def reviewSortKey (sb : SortBy) (r : Review) : Int :=
  match sb with
  | SortBy.date => r.date
  | SortBy.helpful => (r.helpful_votes : Int)
  | SortBy.rating => (r.rating : Int)

/-- The `reviews.sort(key=..., reverse=(criteria.sort_order == 'desc'))` step
shared verbatim by `_apply_filters` (amazon_scraper.py) and
`_apply_final_processing` (requests_scraper.py). -/
def pySortReviews (l : List Review) (c : SearchCriteria) : List Review :=
  if c.sort_order = SortOrder.desc then
    pySorted (fun a b => decide (reviewSortKey c.sort_by b ≤ reviewSortKey c.sort_by a)) l
  else
    pySorted (fun a b => decide (reviewSortKey c.sort_by a ≤ reviewSortKey c.sort_by b)) l

/-- `AmazonReviewScraper._apply_filters` from `amazon_scraper.py`
(lines 377-396): filter by `_matches_criteria`, stable sort, then truncate to
`max_results` when that field is truthy. -/
def applyFilters (l : List Review) (c : SearchCriteria) : List Review :=
  let filtered := l.filter (fun r => matchesCriteria r c)
  let sorted := pySortReviews filtered c
  if pyTruthy c.max_results then sorted.take (c.max_results.getD 0) else sorted

/-- The per-review keep condition of the `continue`-chain in
`RequestsAmazonScraper._apply_criteria_filter` (requests_scraper.py,
lines 1046-1083). -/
def requestsKeep (r : Review) (c : SearchCriteria) : Bool :=
  if pyTruthy c.min_rating ∧ r.rating < c.min_rating.getD 0 then false
  else if pyTruthy c.max_rating ∧ c.max_rating.getD 0 < r.rating then false
  else if dateRangeFails r c then false
  else if c.verified_purchase_only ∧ ¬ r.verified_purchase then false
  else if pyTruthy c.min_review_length ∧ r.text.length < c.min_review_length.getD 0 then false
  else if pyTruthy c.max_review_length ∧ c.max_review_length.getD 0 < r.text.length then false
  else if pyTruthy c.min_helpful_votes ∧ r.helpful_votes < c.min_helpful_votes.getD 0 then false
  else true

/-- `RequestsAmazonScraper._apply_criteria_filter`: the loop appends exactly the
reviews that survive every `continue` guard. -/
def applyCriteriaFilter (l : List Review) (c : SearchCriteria) : List Review :=
  l.filter (fun r => requestsKeep r c)

/-- `RequestsAmazonScraper._apply_final_processing` (requests_scraper.py,
lines 1085-1099): stable sort by `sort_by`, then truncate to `max_results`
when that field is truthy. -/
def applyFinalProcessing (l : List Review) (c : SearchCriteria) : List Review :=
  let sorted := pySortReviews l c
  if pyTruthy c.max_results then sorted.take (c.max_results.getD 0) else sorted

/-- Increment of the `rating_distribution` dict in `ReviewStats.add_review`:
`if rating not in dist: dist[rating] = 0` followed by `dist[rating] += 1`.
The dict is modelled as an insertion-ordered association list. -/
def distInc : List (Nat × Nat) → Nat → List (Nat × Nat)
  | [], r => [(r, 1)]
  | (k, v) :: t, r => if k = r then (k, v + 1) :: t else (k, v) :: distInc t r

/-- Dictionary lookup in the distribution (0 when the rating is absent). -/
def distCount : List (Nat × Nat) → Nat → Nat
  | [], _ => 0
  | (k, v) :: t, r => if k = r then v else distCount t r

/-- The `sum(rating * count for rating, count in self.rating_distribution.items())`
expression of `ReviewStats.add_review`. -/
def distTotalRating : List (Nat × Nat) → Nat
  | [] => 0
  | (k, v) :: t => k * v + distTotalRating t

/-- ReviewStats model from `models/review.py` (`class ReviewStats`).
`average_rating` is a Python float computed by true division; modelled as `ℚ`.
`date_range` stores the `earliest`/`latest` pair. -/
structure ReviewStats where
  total_reviews : Nat := 0
  average_rating : ℚ := 0
  rating_distribution : List (Nat × Nat) := []
  verified_purchase_count : Nat := 0
  date_range : Option (Int × Int) := none
deriving DecidableEq, Repr

/-- `ReviewStats.add_review` from `models/review.py` (lines 63-90): bump the
total, bump the distribution, bump the verified count, widen the date range,
then recompute `average_rating = Σ(rating⋅count) / total_reviews` from the full
distribution. -/
def ReviewStats.add_review (s : ReviewStats) (r : Review) : ReviewStats :=
  let total := s.total_reviews + 1
  let dist := distInc s.rating_distribution r.rating
  { total_reviews := total
    rating_distribution := dist
    verified_purchase_count :=
      if r.verified_purchase then s.verified_purchase_count + 1
      else s.verified_purchase_count
    date_range :=
      match s.date_range with
      | none => some (r.date, r.date)
      | some (e, l) =>
        some ((if r.date < e then r.date else e), (if l < r.date then r.date else l))
    average_rating := (distTotalRating dist : ℚ) / (total : ℚ) }

/-- `_generate_stats` (identical in both scrapers): fold `add_review` over the
final review list starting from a fresh `ReviewStats()`. -/
def generateStats (l : List Review) : ReviewStats :=
  l.foldl ReviewStats.add_review {}

/-- Python `str.upper`, character-wise (faithful on ASCII strings, which is
where `validate_asin` applies it). -/
def pyUpper (s : String) : String :=
  String.mk (s.data.map Char.toUpper)

/-- `Product.validate_asin` from `models/review.py` (lines 40-45): reject
unless the value is a non-empty 10-character alphanumeric string, and store it
upper-cased.  `str.isalnum`/`str.upper` are modelled on ASCII characters. -/
def validate_asin (v : String) : Except String String :=
  if v = "" ∨ v.length ≠ 10 ∨ ¬ v.data.all Char.isAlphanum then
    Except.error ("ASIN must be 10 alphanumeric characters")
  else
    Except.ok (pyUpper v)

/-- Product model from `models/review.py` (`class Product`). -/
structure AmazonProduct where
  title : String
  asin : String
  url : String
  average_rating : ℚ := 0
  total_reviews : Nat := 0
  price : Option String := none
  image_url : Option String := none
  category : Option String := none
deriving DecidableEq, Repr

/-- Pydantic construction of a `Product`: the `validator('asin')` runs on the
supplied value and the returned (upper-cased) value is stored. -/
def AmazonProduct.build (title asin url : String) : Except String AmazonProduct :=
  match validate_asin asin with
  | Except.error e => Except.error e
  | Except.ok a => Except.ok { title := title, asin := a, url := url }

/-- RateLimiter model from `utils/delay.py` (lines 42-71).  `requests` holds
event-loop timestamps (modelled as `ℚ`). -/
structure RateLimiter where
  max_requests : Nat
  time_window : ℚ
  requests : List ℚ := []
deriving DecidableEq, Repr

/-- `RateLimiter.acquire`: evict timestamps outside the sliding window, sleep
`time_window - (now - requests[0]) + 0.1` when at capacity (only when that is
positive), then record `now`.  Returns the slept duration together with the new
state.  (`requests[0]` is total here via `headD`; Python would raise
`IndexError` only in the degenerate `max_requests = 0` case.) -/
def RateLimiter.acquire (s : RateLimiter) (now : ℚ) : ℚ × RateLimiter :=
  let reqs := s.requests.filter (fun rt => now - rt < s.time_window)
  let slept :=
    if s.max_requests ≤ reqs.length then
      let sleep_time := s.time_window - (now - reqs.headD 0) + 1/10
      if 0 < sleep_time then sleep_time else 0
    else 0
  (slept, { s with requests := reqs ++ [now] })

/-- Iterate `acquire` over a list of call times, collecting slept durations. -/
def RateLimiter.runCalls (s : RateLimiter) : List ℚ → List ℚ × RateLimiter
  | [] => ([], s)
  | t :: ts =>
    let step := s.acquire t
    let rest := step.2.runCalls ts
    (step.1 :: rest.1, rest.2)

/-- A search hit as built by `keyword_search`/`vector_search` in
`W301-pdf-rag/retrieval.py`: the fields read by `hybrid_search_rrf`.
The `metadata` dict is carried as an opaque payload. -/
structure Hit where
  id : String
  text : String
  doc_type : String
  page_num : Nat
  metadata : String
  rank : Nat
  score : ℚ
deriving DecidableEq, Repr

/-- One value of the `scores` dict inside `hybrid_search_rrf`. -/
structure ScoreEntry where
  score : ℚ
  text : String
  id : String
  doc_type : String
  page_num : Nat
  metadata : String
deriving DecidableEq, Repr

/-- The RRF constant `RAGConfig.RRF_K` from `W301-pdf-rag/config.py`. -/
def RRF_K : ℚ := 60

/-- Processing of one hit inside `hybrid_search_rrf`: if the id is absent a
fresh entry with score 0 and the hit's payload is inserted (Python dicts keep
insertion order, hence the append-at-end shape), then the entry's score is
incremented by `1 / (k + hit['rank'])`. -/
def rrfAdd (k : ℚ) (h : Hit) : List ScoreEntry → List ScoreEntry
  | [] =>
    [{ score := 0 + 1 / (k + (h.rank : ℚ)), text := h.text, id := h.id,
       doc_type := h.doc_type, page_num := h.page_num, metadata := h.metadata }]
  | e :: t =>
    if e.id = h.id then { e with score := e.score + 1 / (k + (h.rank : ℚ)) } :: t
    else e :: rrfAdd k h t

/-- The `for hit in ...` loops of `hybrid_search_rrf` over one hit list. -/
def rrfProcess (k : ℚ) (scores : List ScoreEntry) (hits : List Hit) : List ScoreEntry :=
  hits.foldl (fun s h => rrfAdd k h s) scores

/-- Shape of the timestamp regex `\d\d:\d\d\.\d\d\d --> \d\d:\d\d\.\d\d\d`
removed from result texts by `hybrid_search_rrf`. -/
def tsShape : List (Char → Bool) :=
  [Char.isDigit, Char.isDigit, (fun ch => ch = ':'), Char.isDigit, Char.isDigit,
   (fun ch => ch = '.'), Char.isDigit, Char.isDigit, Char.isDigit,
   (fun ch => ch = ' '), (fun ch => ch = '-'), (fun ch => ch = '-'),
   (fun ch => ch = '>'), (fun ch => ch = ' '),
   Char.isDigit, Char.isDigit, (fun ch => ch = ':'), Char.isDigit, Char.isDigit,
   (fun ch => ch = '.'), Char.isDigit, Char.isDigit, Char.isDigit]

/-- Does the string start with the given shape of character predicates? -/
def matchesShape : List (Char → Bool) → List Char → Bool
  | [], _ => true
  | _ :: _, [] => false
  | p :: ps, c :: cs => p c && matchesShape ps cs

/-- Model of `re.sub(timestamp_pattern, '', text)`: scan left to right, drop
each (fixed-width, 23-character) leftmost match, keep everything else. -/
def stripTimestamps : List Char → List Char
  | [] => []
  | c :: t =>
    if matchesShape tsShape (c :: t) then stripTimestamps ((c :: t).drop 23)
    else c :: stripTimestamps t
termination_by l => l.length
decreasing_by
  all_goals simp [List.length_drop]
  omega

/-- One element of the `final_results` list of `hybrid_search_rrf`. -/
structure RRFResult where
  id : String
  text : String
  doc_type : String
  page_num : Nat
  metadata : String
  rank : Nat
  rrf_score : ℚ
deriving DecidableEq, Repr

/-- The `for idx, doc in enumerate(ranked_docs)` formatting loop of
`hybrid_search_rrf` (`rank = idx + 1`, `rrf_score = doc['score']`). -/
def rrfFormat : List ScoreEntry → Nat → List RRFResult
  | [], _ => []
  | e :: t, i =>
    { id := e.id, text := e.text, doc_type := e.doc_type, page_num := e.page_num,
      metadata := e.metadata, rank := i + 1, rrf_score := e.score } :: rrfFormat t (i + 1)

/-- `hybrid_search_rrf` from `W301-pdf-rag/retrieval.py` (lines 153-220):
accumulate `1/(k + rank)` per hit into the `scores` dict (keyword hits first,
then vector hits), sort entries by score descending (stable), strip timestamp
artefacts from the texts, and format with 1-based output ranks. -/
def hybrid_search_rrf (keyword_hits vector_hits : List Hit) (k : ℚ) : List RRFResult :=
  let scores := rrfProcess k (rrfProcess k [] keyword_hits) vector_hits
  let ranked := pySorted (fun a b => decide (b.score ≤ a.score)) scores
  let cleaned := ranked.map (fun e => { e with text := String.mk (stripTimestamps e.text.data) })
  rrfFormat cleaned 0

/-- A retrieved document as consumed by `generate_answer` in
`W301-pdf-rag/answer_generation.py`: the fields the function reads.
`table_markdown` models `metadata.get('table_markdown', '')`. -/
structure RagDoc where
  doc_type : String := "text"
  page_num : Nat := 0
  text : String := ""
  table_markdown : String := ""
deriving DecidableEq, Repr

/-- One `context_parts` element of `format_context`. -/
def contextPart (i : Nat) (d : RagDoc) : String :=
  let tx :=
    if d.doc_type = "table" ∧ d.table_markdown ≠ "" then
      d.text ++ "\n\n表格内容：\n" ++ d.table_markdown
    else d.text
  let pre :=
    if d.doc_type = "image" then "[图片 - 第" ++ toString d.page_num ++ "页]"
    else if d.doc_type = "table" then "[表格 - 第" ++ toString d.page_num ++ "页]"
    else "[文本 - 第" ++ toString d.page_num ++ "页]"
  "[" ++ toString (i + 1) ++ "] " ++ pre ++ " " ++ tx

/-- `format_context` from `answer_generation.py` (with `include_metadata=True`,
as called by `generate_answer`). -/
def formatContext (docs : List RagDoc) : String :=
  String.intercalate ("\n\n") (docs.enum.map (fun p => contextPart p.1 p.2))

/-- Marker scanner modelling `re.findall(r'\[(\d+)\]', answer)` as a one-pass
state machine: the first argument is `none` while looking for `[`, and
`some acc` (reversed digits seen so far) inside a `[` attempt.  A failed
attempt resumes scanning at the failing character; since the characters
skipped inside a failed attempt are digits (which cannot start a match), this
coincides with the regex engine's leftmost non-overlapping search. -/
def fmAux : Option (List Char) → List Char → List String
  | _, [] => []
  | none, c :: t => if c = '[' then fmAux (some []) t else fmAux none t
  | some acc, c :: t =>
    if c.isDigit then fmAux (some (c :: acc)) t
    else if c = ']' then
      if acc.isEmpty then fmAux none t
      else String.mk acc.reverse :: fmAux none t
    else if c = '[' then fmAux (some []) t
    else fmAux none t

/-- All `[<digits>]` citation markers of an answer string, leftmost first. -/
def findMarkers (s : String) : List String :=
  fmAux none s.data

/-- First-occurrence de-duplication (with an accumulator of already-seen
elements).  Models `OrderedDict.fromkeys` in `excel_processor.py`, and
`list(set(...))` in `answer_generation.py` up to the (irrelevant, see the
theorems) iteration order of a Python set. -/
def dedupFirstAux [DecidableEq α] (seen : List α) : List α → List α
  | [] => []
  | x :: t => if x ∈ seen then dedupFirstAux seen t else x :: dedupFirstAux (x :: seen) t

/-- First-occurrence de-duplication of a list. -/
def dedupFirst [DecidableEq α] (l : List α) : List α :=
  dedupFirstAux [] l

/-- `int` on a digit string, as applied to each regex capture. -/
def digitsToNat (s : String) : Nat :=
  s.data.foldl (fun n c => 10 * n + (c.toNat - 48)) 0

/-- The citation-number pipeline of `generate_answer` (lines 116-121):
`citations = list(set(re.findall(r'\[(\d+)\]', answer)))`, convert to `int`,
sort ascending.  (The unspecified set order only permutes equal values and
values that the sort re-orders, so the result is well defined.) -/
def extractCitations (answer : String) : List Nat :=
  pySorted (fun a b => decide (a ≤ b)) ((dedupFirst (findMarkers answer)).map digitsToNat)

/-- One element of `citation_details`. -/
structure CitationDetail where
  citation_number : Nat
  doc_type : String
  page_num : Nat
  text : String
deriving DecidableEq, Repr

/-- The `doc.get('text', '')[:200] + '...'` truncation of a citation detail. -/
def truncateText (t : String) : String :=
  if 200 < t.length then t.take 200 ++ ("...") else t

/-- The `citation_details` loop of `generate_answer` (lines 124-133): keep the
citation numbers `c` with `0 < c ≤ len(documents)` and attach the data of
document `c - 1`. -/
def citationDetails : List Nat → List RagDoc → List CitationDetail
  | [], _ => []
  | c :: t, docs =>
    if 0 < c ∧ c ≤ docs.length then
      { citation_number := c
        doc_type := (docs.getD (c - 1) {}).doc_type
        page_num := (docs.getD (c - 1) {}).page_num
        text := truncateText (docs.getD (c - 1) {}).text } :: citationDetails t docs
    else citationDetails t docs

/-- The result dictionary of `generate_answer`. -/
structure GenAnswer where
  answer : String
  citations : List CitationDetail
  num_sources : Nat
  model : Option String := none
deriving DecidableEq, Repr

/-- The canned no-documents answer of `generate_answer`. -/
def noInfoAnswer : String :=
  "抱歉，我没有找到相关的信息来回答您的问题。"

/-- `generate_answer` from `answer_generation.py` (lines 47-146), with the
OpenAI chat call abstracted as an oracle `llm : system prompt → user prompt →
Except error answer`.  The second component counts LLM invocations.  With an
empty document list the function short-circuits before building any prompt. -/
def generate_answer (llm : String → String → Except String String)
    (query : String) (docs : List RagDoc) (model : String) : GenAnswer × Nat :=
  if docs.isEmpty then
    ({ answer := noInfoAnswer, citations := [], num_sources := 0 }, 0)
  else
    let context := formatContext docs
    let user_prompt :=
      "参考文档：\n\n" ++ context ++ "\n\n用户问题：" ++ query ++
      "\n\n请基于上述文档内容回答问题，并在答案中使用 [1], [2] 等标记引用相关文档。"
    match llm ("你是一个专业的知识助手，基于提供的文档内容回答用户问题。") user_prompt with
    | Except.ok answer =>
      ({ answer := answer
         citations := citationDetails (extractCitations answer) docs
         num_sources := docs.length
         model := some model }, 1)
    | Except.error e =>
      ({ answer := "生成答案时出错：" ++ e
         citations := []
         num_sources := docs.length }, 1)

/-- `rag_fusion` from `W301-pdf-rag/query_enhancement.py` (lines 11-59), with
the LLM call plus JSON parse abstracted as an oracle: `error` for any raised
exception, `ok none` for a JSON object without a `queries` key (where `.get`
supplies the `[query]` default), `ok (some vs)` for a parsed variant list. -/
def rag_fusion (llm : Except String (Option (List String))) (query : String) : List String :=
  match llm with
  | Except.error _ => [query]
  | Except.ok parsed =>
    let variations := parsed.getD [query]
    if query ∈ variations then variations else query :: variations

/-- Substring membership over character lists (Python's `'Unnamed' in part`). -/
def startsWithChars : List Char → List Char → Bool
  | [], _ => true
  | _ :: _, [] => false
  | a :: as, b :: bs => a = b && startsWithChars as bs

/-- Does `hay` contain `needle` as a contiguous substring? -/
def hasSub (needle : List Char) : List Char → Bool
  | [] => needle.isEmpty
  | c :: t => startsWithChars needle (c :: t) || hasSub needle t

/-- The token filter of `deduplication_header`: keep a part iff it is
non-empty, does not contain `"Unnamed"`, and is not `"nan"`. -/
def goodPart (p : String) : Bool :=
  decide (p ≠ "") && !(hasSub ("Unnamed").data p.data) && decide (p ≠ "nan")

/-- The per-column name builder of `ExcelProcessor.deduplication_header`
(`W601/excel_processor.py`, lines 160-169): de-duplicate the column's parts by
first occurrence (`OrderedDict.fromkeys`), keep the good parts, join with `-`,
and fall back to `Column_<i>` when the join is empty (falsy). -/
def buildColName (parts : List String) (colIdx : Nat) : String :=
  let valid := String.intercalate ("-") ((dedupFirst parts).filter goodPart)
  if valid = "" then "Column_" ++ toString colIdx else valid

/-- The `new_columns` computation of `deduplication_header` for multi-row
headers: one combined name per column of the first header row
(`range(len(header_data[0]))`), taking that column's value from every header
row in order.  `getD _ ""` is total where Python would raise on ragged rows;
the theorems assume uniform row lengths. -/
def newColumns (headerData : List (List String)) : List String :=
  (List.range (headerData.headD []).length).map (fun colIdx =>
    buildColName (headerData.map (fun row => row.getD colIdx "")) colIdx)

/-- Adjacent-only de-duplication, following the spec's words
"de-duplicating immediately-repeated tokens" (used to compare the spec's
description of `deduplication_header` with the code's behaviour). -/
def adjacentDedup : List String → List String
  | [] => []
  | [x] => [x]
  | x :: y :: t =>
    if x = y then adjacentDedup (y :: t) else x :: adjacentDedup (y :: t)

/-- Modelled from the spec: the column-name builder as the spec sentence
describes it, de-duplicating only immediately-repeated tokens. -/
def specAdjacentColName (parts : List String) (colIdx : Nat) : String :=
  let valid := String.intercalate ("-") ((adjacentDedup parts).filter goodPart)
  if valid = "" then "Column_" ++ toString colIdx else valid

/-! Infrastructure lemmas about the stable sort model. -/

lemma insSorted_perm (le : α → α → Bool) (x : α) (l : List α) :
    (insSorted le x l).Perm (x :: l) := by
  induction l with
  | nil => simp [insSorted]
  | cons y t ih =>
    by_cases h : le y x = true
    · simpa [insSorted, h] using ((ih.cons y).trans (List.Perm.swap x y t))
    · simp [insSorted, h]

lemma pySorted_perm (le : α → α → Bool) (l : List α) :
    (pySorted le l).Perm l := by
  induction l with
  | nil => simp [pySorted]
  | cons x t ih =>
    have : pySorted le (x :: t) = insSorted le x (pySorted le t) := rfl
    rw [this]
    exact (insSorted_perm le x (pySorted le t)).trans (ih.cons x)

lemma mem_pySorted {le : α → α → Bool} {a : α} {l : List α} :
    a ∈ pySorted le l ↔ a ∈ l :=
  (pySorted_perm le l).mem_iff

lemma length_pySorted (le : α → α → Bool) (l : List α) :
    (pySorted le l).length = l.length :=
  (pySorted_perm le l).length_eq

lemma pySortReviews_perm (l : List Review) (c : SearchCriteria) :
    (pySortReviews l c).Perm l := by
  unfold pySortReviews
  split <;> exact pySorted_perm _ l

/-! Lemmas extracting facts from a passed criteria check. -/

lemma matchesCriteria_min_rating {r : Review} {c : SearchCriteria} {n : Nat}
    (hn : c.min_rating = some n) (h0 : n ≠ 0)
    (h : matchesCriteria r c = true) : n ≤ r.rating := by
  by_contra hlt
  push_neg at hlt
  have hfalse : matchesCriteria r c = false := by
    unfold matchesCriteria
    rw [hn]
    rw [if_pos ⟨by simp [pyTruthy, h0], by simpa using hlt⟩]
  rw [h] at hfalse
  exact absurd hfalse (by simp)

lemma matchesCriteria_verified {r : Review} {c : SearchCriteria}
    (hv : c.verified_purchase_only = true)
    (h : matchesCriteria r c = true) : r.verified_purchase = true := by
  by_contra hf
  have hfalse : matchesCriteria r c = false := by
    unfold matchesCriteria
    split_ifs with h1 h2 h3 h4 <;> try rfl
    all_goals exact absurd ⟨hv, hf⟩ h4
  rw [h] at hfalse
  exact absurd hfalse (by simp)

lemma matchesCriteria_helpful {r : Review} {c : SearchCriteria} {n : Nat}
    (hn : c.min_helpful_votes = some n) (h0 : n ≠ 0)
    (h : matchesCriteria r c = true) : n ≤ r.helpful_votes := by
  by_contra hlt
  push_neg at hlt
  have hfalse : matchesCriteria r c = false := by
    unfold matchesCriteria
    rw [hn]
    split_ifs with h1 h2 h3 h4 h5 h6 h7 <;> try rfl
    all_goals exact absurd ⟨by simp [pyTruthy, h0], by simpa using hlt⟩ h7
  rw [h] at hfalse
  exact absurd hfalse (by simp)

lemma requestsKeep_eq_matchesCriteria (r : Review) (c : SearchCriteria) :
    requestsKeep r c = matchesCriteria r c := rfl

/-! Statistics fold lemmas. -/

lemma statsFold_total (l : List Review) (s : ReviewStats) :
    (l.foldl ReviewStats.add_review s).total_reviews = s.total_reviews + l.length := by
  induction l generalizing s with
  | nil => simp
  | cons r t ih =>
    have : (r :: t).foldl ReviewStats.add_review s
        = t.foldl ReviewStats.add_review (s.add_review r) := rfl
    rw [this, ih]
    simp [ReviewStats.add_review]
    omega

lemma generateStats_total (l : List Review) :
    (generateStats l).total_reviews = l.length := by
  unfold generateStats
  rw [statsFold_total]
  show 0 + l.length = l.length
  exact Nat.zero_add _

/-- C5: calling `generate_answer` with an empty document list returns the fixed
canned "no relevant information" answer with empty citations and
`num_sources = 0`, and the LLM oracle is never invoked (the call count is 0),
whatever the oracle, the query and the model are. -/
theorem generate_answer_empty_docs
    (llm : String → String → Except String String) (q m : String) :
    generate_answer llm q [] m
      = ({ answer := noInfoAnswer, citations := [], num_sources := 0 }, 0) := by
  rfl

/-- C6: constructing a `Product` from any 10-character alphanumeric ASIN
succeeds and stores the ASIN upper-cased; any string of a different length, or
any (ASCII) string containing a non-alphanumeric character, is rejected with a
validation error.  Example: `"b08n5wrwnw"` is stored as `"B08N5WRWNW"`. -/
theorem product_asin_validation (t u : String) :
    (∀ v : String, v.length = 10 → v.data.all Char.isAlphanum = true →
      AmazonProduct.build t v u
        = Except.ok { title := t, asin := pyUpper v, url := u }) ∧
    (∀ v : String, v.length ≠ 10 →
      AmazonProduct.build t v u
        = Except.error ("ASIN must be 10 alphanumeric characters")) ∧
    (∀ v : String, (∃ c ∈ v.data, c.toNat < 128 ∧ ¬ c.isAlphanum) →
      AmazonProduct.build t v u
        = Except.error ("ASIN must be 10 alphanumeric characters")) ∧
    validate_asin ("b08n5wrwnw") = Except.ok ("B08N5WRWNW") := by
  refine ⟨?_, ?_, ?_, rfl⟩
  · intro v hlen hall
    have hne : ¬ (v = "" ∨ v.length ≠ 10 ∨ ¬ v.data.all Char.isAlphanum = true) := by
      push_neg
      refine ⟨?_, by omega, hall⟩
      intro hv
      rw [hv] at hlen
      simp at hlen
    have hv : validate_asin v = Except.ok (pyUpper v) := by
      unfold validate_asin
      rw [if_neg hne]
    unfold AmazonProduct.build
    rw [hv]
  · intro v hlen
    have hv : validate_asin v = Except.error ("ASIN must be 10 alphanumeric characters") := by
      unfold validate_asin
      rw [if_pos (Or.inr (Or.inl hlen))]
    unfold AmazonProduct.build
    rw [hv]
  · intro v hc
    obtain ⟨ch, hmem, _, hbad⟩ := hc
    have hall : ¬ v.data.all Char.isAlphanum = true := by
      simp only [List.all_eq_true]
      intro hAll
      exact hbad (hAll ch hmem)
    have hv : validate_asin v = Except.error ("ASIN must be 10 alphanumeric characters") := by
      unfold validate_asin
      rw [if_pos (Or.inr (Or.inr hall))]
    unfold AmazonProduct.build
    rw [hv]

/-- C6 witness: the success branch at the concrete ASIN `"b08n5wrwnw"`. -/
theorem product_asin_validation_witness :
    AmazonProduct.build ("T") ("b08n5wrwnw") ("U")
      = Except.ok { title := "T", asin := "B08N5WRWNW", url := "U" } := by
  have h := (product_asin_validation ("T") ("U")).1 ("b08n5wrwnw") (by decide) (by decide)
  rw [show pyUpper ("b08n5wrwnw") = "B08N5WRWNW" from by decide] at h
  exact h

/-- C8: `rag_fusion` always returns a list containing the original query; when
the parsed variant list omits the query it is re-inserted at the front; and on
any LLM/JSON failure the result is exactly the singleton original-query
list. -/
theorem rag_fusion_original_query
    (r : Except String (Option (List String))) (q : String) :
    q ∈ rag_fusion r q ∧
    (∀ e, r = Except.error e → rag_fusion r q = [q]) ∧
    (∀ vs, r = Except.ok (some vs) → q ∉ vs → rag_fusion r q = q :: vs) := by
  refine ⟨?_, ?_, ?_⟩
  · cases r with
    | error e => simp [rag_fusion]
    | ok parsed =>
      cases parsed with
      | none => simp [rag_fusion]
      | some vs =>
        by_cases h : q ∈ vs
        · simp [rag_fusion, h]
        · simp [rag_fusion, h]
  · intro e he
    subst he
    rfl
  · intro vs hvs h
    subst hvs
    simp [rag_fusion, h]

/-- C8 witness: a failing LLM call at a concrete query. -/
theorem rag_fusion_original_query_witness :
    rag_fusion (Except.error ("boom")) ("q0") = ["q0"] ∧
    "q0" ∈ rag_fusion (Except.error ("boom")) ("q0") :=
  ⟨(rag_fusion_original_query (Except.error ("boom")) ("q0")).2.1 ("boom") rfl,
   (rag_fusion_original_query (Except.error ("boom")) ("q0")).1⟩

/-- Concrete criteria with both zero thresholds, used for claim C10: pydantic
accepts it (`ge=0` fields), yet both guards are disabled by Python
truthiness. -/
def zeroThresholdCriteria : SearchCriteria :=
  { keywords := ["wireless headphones"]
    max_review_length := some 0
    min_helpful_votes := some 0 }

/-- Concrete review with a 44-character text, longer than the
`max_review_length = 0` threshold of `zeroThresholdCriteria`. -/
def longTextReview : Review :=
  { id := "R1"
    title := "Great"
    text := "this review text is longer than the threshold"
    rating := 5
    date := 0
    reviewer_name := "alice"
    product_asin := "B08N5WRWNW"
    product_title := "headphones" }

/-- C10: a threshold field whose value is 0 disables its check in both
scrapers' filters (the guards test Python truthiness, not presence):
`max_review_length = 0` is accepted by `SearchCriteria` validation, every
review passes the length filter under it, `min_helpful_votes = 0` skips the
helpful-votes check, and a valid criteria admits a review whose text is longer
than `max_review_length` into the filtered output of either scraper path. -/
theorem zero_threshold_disables_check :
    SearchCriteria.validB zeroThresholdCriteria = true ∧
    (∀ c : SearchCriteria, c.max_review_length = some 0 →
      pyTruthy c.max_review_length = false) ∧
    (∀ c : SearchCriteria, c.min_helpful_votes = some 0 →
      pyTruthy c.min_helpful_votes = false) ∧
    (∀ r : Review, matchesCriteria r zeroThresholdCriteria = true) ∧
    (∀ r : Review, requestsKeep r zeroThresholdCriteria = true) ∧
    (∀ l : List Review, applyCriteriaFilter l zeroThresholdCriteria = l) ∧
    (zeroThresholdCriteria.max_review_length = some 0 ∧
      0 < longTextReview.text.length ∧
      applyFilters [longTextReview] zeroThresholdCriteria = [longTextReview] ∧
      applyCriteriaFilter [longTextReview] zeroThresholdCriteria = [longTextReview]) := by
  have hmatch : ∀ r : Review, matchesCriteria r zeroThresholdCriteria = true := by
    intro r
    simp [matchesCriteria, zeroThresholdCriteria, pyTruthy, dateRangeFails]
  refine ⟨by decide, ?_, ?_, hmatch, ?_, ?_, ?_⟩
  · intro c hc
    rw [hc]
    rfl
  · intro c hc
    rw [hc]
    rfl
  · intro r
    rw [requestsKeep_eq_matchesCriteria]
    exact hmatch r
  · intro l
    unfold applyCriteriaFilter
    rw [List.filter_eq_self.mpr]
    intro r _
    rw [requestsKeep_eq_matchesCriteria]
    exact hmatch r
  · exact ⟨rfl, by decide, by decide, by decide⟩

/-- C10 witness: the truthiness guard evaluated at the concrete criteria. -/
theorem zero_threshold_disables_check_witness :
    pyTruthy zeroThresholdCriteria.max_review_length = false ∧
    matchesCriteria longTextReview zeroThresholdCriteria = true :=
  ⟨zero_threshold_disables_check.2.1 zeroThresholdCriteria rfl,
   zero_threshold_disables_check.2.2.2.1 longTextReview⟩

lemma mem_applyFilters_matches {r : Review} {l : List Review} {c : SearchCriteria}
    (h : r ∈ applyFilters l c) : matchesCriteria r c = true := by
  unfold applyFilters at h
  have hmem : r ∈ pySortReviews (l.filter (fun x => matchesCriteria x c)) c := by
    split at h
    · exact List.mem_of_mem_take h
    · exact h
  have := (pySortReviews_perm _ c).mem_iff.mp hmem
  exact (List.mem_filter.mp this).2

lemma length_applyFilters_le {l : List Review} {c : SearchCriteria} {n : Nat}
    (h3 : c.max_results = some n) (h0 : n ≠ 0) :
    (applyFilters l c).length ≤ n := by
  unfold applyFilters
  rw [h3]
  have : pyTruthy (some n) = true := by simp [pyTruthy, h0]
  rw [if_pos this]
  exact List.length_take_le _ _

lemma mem_applyFinalProcessing {r : Review} {l : List Review} {c : SearchCriteria}
    (h : r ∈ applyFinalProcessing l c) : r ∈ l := by
  unfold applyFinalProcessing at h
  have hmem : r ∈ pySortReviews l c := by
    split at h
    · exact List.mem_of_mem_take h
    · exact h
  exact (pySortReviews_perm _ c).mem_iff.mp hmem

lemma length_applyFinalProcessing_le {l : List Review} {c : SearchCriteria} {n : Nat}
    (h3 : c.max_results = some n) (h0 : n ≠ 0) :
    (applyFinalProcessing l c).length ≤ n := by
  unfold applyFinalProcessing
  rw [h3]
  have : pyTruthy (some n) = true := by simp [pyTruthy, h0]
  rw [if_pos this]
  exact List.length_take_le _ _

lemma matchesCriteria_false_of_low_rating {r : Review} {c : SearchCriteria}
    (h1 : c.min_rating = some 4) (hr : r.rating = 3) :
    matchesCriteria r c = false := by
  unfold matchesCriteria
  rw [h1]
  rw [if_pos ⟨by simp [pyTruthy], by simp [hr]⟩]

lemma matchesCriteria_false_of_low_helpful {r : Review} {c : SearchCriteria}
    (hn : c.min_helpful_votes = some 5) (hv : r.helpful_votes = 2) :
    matchesCriteria r c = false := by
  unfold matchesCriteria
  rw [hn]
  split_ifs with h1 h2 h3 h4 h5 h6 h7 <;> try rfl
  exact absurd ⟨by simp [pyTruthy], by simp [hv]⟩ h7

/-- C1: for any criteria with `min_rating = 4`, `verified_purchase_only = True`
and `max_results = 50`, the final filter/sort/truncate stage of either scraper
(browser path `_apply_filters`; HTTP path `_apply_criteria_filter` followed by
`_apply_final_processing`) yields only reviews with `rating ≥ 4` and
`verified_purchase`, at most 50 of them, and `_generate_stats` of that list has
`total_reviews` equal to its length; moreover a rating-3 review under
`min_rating = 4`, and a 2-helpful-votes review under `min_helpful_votes = 5`,
fail both scrapers' criteria checks. -/
theorem scraper_filter_pipeline (c : SearchCriteria) (l : List Review)
    (h1 : c.min_rating = some 4) (h2 : c.verified_purchase_only = true)
    (h3 : c.max_results = some 50) :
    (∀ r ∈ applyFilters l c, 4 ≤ r.rating ∧ r.verified_purchase = true) ∧
    (applyFilters l c).length ≤ 50 ∧
    (generateStats (applyFilters l c)).total_reviews = (applyFilters l c).length ∧
    (∀ r ∈ applyFinalProcessing (applyCriteriaFilter l c) c,
      4 ≤ r.rating ∧ r.verified_purchase = true) ∧
    (applyFinalProcessing (applyCriteriaFilter l c) c).length ≤ 50 ∧
    (generateStats (applyFinalProcessing (applyCriteriaFilter l c) c)).total_reviews
      = (applyFinalProcessing (applyCriteriaFilter l c) c).length ∧
    (∀ r : Review, r.rating = 3 →
      matchesCriteria r c = false ∧ requestsKeep r c = false) ∧
    (∀ (c2 : SearchCriteria) (r : Review),
      c2.min_helpful_votes = some 5 → r.helpful_votes = 2 →
      matchesCriteria r c2 = false ∧ requestsKeep r c2 = false) := by
  refine ⟨?_, ?_, generateStats_total _, ?_, ?_, generateStats_total _, ?_, ?_⟩
  · intro r hr
    have hm := mem_applyFilters_matches hr
    exact ⟨matchesCriteria_min_rating h1 (by decide) hm, matchesCriteria_verified h2 hm⟩
  · exact length_applyFilters_le h3 (by decide)
  · intro r hr
    have hmem := mem_applyFinalProcessing hr
    have hm : matchesCriteria r c = true := by
      have := (List.mem_filter.mp hmem).2
      rwa [requestsKeep_eq_matchesCriteria] at this
    exact ⟨matchesCriteria_min_rating h1 (by decide) hm, matchesCriteria_verified h2 hm⟩
  · exact length_applyFinalProcessing_le h3 (by decide)
  · intro r hr
    refine ⟨matchesCriteria_false_of_low_rating h1 hr, ?_⟩
    rw [requestsKeep_eq_matchesCriteria]
    exact matchesCriteria_false_of_low_rating h1 hr
  · intro c2 r hn hv
    refine ⟨matchesCriteria_false_of_low_helpful hn hv, ?_⟩
    rw [requestsKeep_eq_matchesCriteria]
    exact matchesCriteria_false_of_low_helpful hn hv

/-- Concrete criteria instance of claim C1. -/
def headphonesCriteria : SearchCriteria :=
  { keywords := ["wireless headphones"]
    min_rating := some 4
    verified_purchase_only := true
    max_results := some 50 }

/-- Concrete mixed review list for the C1 witness: one qualifying review, one
rating-3 review, one unverified review. -/
def mixedReviews : List Review :=
  [{ id := "A", title := "good", text := "nice sound", rating := 5, date := 10,
     reviewer_name := "a", verified_purchase := true, helpful_votes := 7,
     product_asin := "B08N5WRWNW", product_title := "hp" },
   { id := "B", title := "meh", text := "average", rating := 3, date := 11,
     reviewer_name := "b", verified_purchase := true, helpful_votes := 1,
     product_asin := "B08N5WRWNW", product_title := "hp" },
   { id := "C", title := "fine", text := "ok but unverified", rating := 5, date := 12,
     reviewer_name := "c", verified_purchase := false, helpful_votes := 2,
     product_asin := "B08N5WRWNW", product_title := "hp" }]

/-- C1 witness: the pipeline guarantees applied at a concrete criteria and
review list. -/
theorem scraper_filter_pipeline_witness :
    (applyFilters mixedReviews headphonesCriteria).length ≤ 50 ∧
    (generateStats (applyFilters mixedReviews headphonesCriteria)).total_reviews
      = (applyFilters mixedReviews headphonesCriteria).length :=
  ⟨(scraper_filter_pipeline headphonesCriteria mixedReviews rfl rfl rfl).2.1,
   (scraper_filter_pipeline headphonesCriteria mixedReviews rfl rfl rfl).2.2.1⟩

lemma rateLimiter_replicate_aux (t : ℚ) :
    ∀ (n k m : Nat), 1 ≤ m → k + n = m →
    (RateLimiter.runCalls ⟨m, 60, List.replicate k t⟩ (List.replicate (n+1) t)).1
      = List.replicate n 0 ++ [60 + 1/10] := by
  intro n
  induction n with
  | zero =>
    intro k m hm hkm
    have hk : k = m := by omega
    subst hk
    have hfilt : (List.replicate k t).filter (fun rt => decide (t - rt < (60 : ℚ))) 
        = List.replicate k t := by
      rw [List.filter_replicate]
      simp
    have hhead : (List.replicate k t).headD 0 = t := by
      obtain ⟨k2, rfl⟩ : ∃ k2, k = k2 + 1 := ⟨k - 1, by omega⟩
      rw [List.replicate_succ]
      rfl
    simp only [List.replicate_succ, List.replicate]
    simp only [RateLimiter.runCalls, RateLimiter.acquire, hfilt, hhead]
    have hlen : k ≤ (List.replicate k t).length := by simp
    rw [if_pos hlen]
    have hq : (60 : ℚ) - (t - t) + 1/10 = 60 + 1/10 := by ring
    rw [hq]
    rw [if_pos (by norm_num : (0:ℚ) < 60 + 1/10)]
    rfl
  | succ n ih =>
    intro k m hm hkm
    have hfilt : (List.replicate k t).filter (fun rt => decide (t - rt < (60 : ℚ)))
        = List.replicate k t := by
      rw [List.filter_replicate]
      simp
    have hnot : ¬ (m ≤ (List.replicate k t).length) := by simp; omega
    have hstep : (RateLimiter.acquire ⟨m, 60, List.replicate k t⟩ t)
        = (0, ⟨m, 60, List.replicate (k+1) t⟩) := by
      simp only [RateLimiter.acquire, hfilt]
      rw [if_neg hnot]
      have : List.replicate k t ++ [t] = List.replicate (k+1) t := by
        rw [List.replicate_succ']
      rw [this]
    have h1 : ((⟨m, 60, List.replicate k t⟩ : RateLimiter).acquire t).1 = 0 := by
      rw [hstep]
    have h2 : ((⟨m, 60, List.replicate k t⟩ : RateLimiter).acquire t).2
        = ⟨m, 60, List.replicate (k+1) t⟩ := by
      rw [hstep]
    have hun : (RateLimiter.runCalls ⟨m, 60, List.replicate k t⟩ (t :: List.replicate (n+1) t)).1
        = ((⟨m, 60, List.replicate k t⟩ : RateLimiter).acquire t).1
          :: (((⟨m, 60, List.replicate k t⟩ : RateLimiter).acquire t).2.runCalls
              (List.replicate (n+1) t)).1 := rfl
    rw [List.replicate_succ, hun, h1, h2, ih (k+1) m hm (by omega), List.replicate_succ]
    rfl

/-- C9: for a `RateLimiter(max_requests = m, time_window = 60)` and `m + 1`
`acquire()` calls in immediate succession (all at event-loop time `t`), the
first `m` calls return without sleeping and the `(m+1)`-th sleeps for the
strictly positive duration `time_window - (age of the oldest request) + 0.1 =
60 - (t - t) + 0.1`. -/
theorem rate_limiter_blocks (m : Nat) (t : ℚ) (hm : 1 ≤ m) :
    (RateLimiter.runCalls ⟨m, 60, []⟩ (List.replicate (m+1) t)).1
      = List.replicate m 0 ++ [60 - (t - t) + 1/10] ∧
    (0 : ℚ) < 60 - (t - t) + 1/10 := by
  constructor
  · have h := rateLimiter_replicate_aux t m 0 m hm (by omega)
    have hq : (60 : ℚ) - (t - t) + 1/10 = 60 + 1/10 := by ring
    rw [hq]
    simpa using h
  · have hq : (60 : ℚ) - (t - t) + 1/10 = 60 + 1/10 := by ring
    rw [hq]
    norm_num

/-- C9 witness: three immediate calls against a limiter with capacity 2. -/
theorem rate_limiter_blocks_witness :
    (RateLimiter.runCalls ⟨2, 60, []⟩ (List.replicate 3 0)).1
      = List.replicate 2 0 ++ [60 - ((0 : ℚ) - 0) + 1/10] :=
  (rate_limiter_blocks 2 0 (by norm_num)).1

/-- Equality of `ReviewStats` states as Python observes them: Python's `==` on
the `rating_distribution` dict compares key-value mappings, not insertion
order, so the distribution is compared through `distCount` (plus its
`Σ rating⋅count` aggregate, which `add_review` reads). -/
def statsEquiv (s t : ReviewStats) : Prop :=
  s.total_reviews = t.total_reviews ∧
  s.average_rating = t.average_rating ∧
  (∀ k, distCount s.rating_distribution k = distCount t.rating_distribution k) ∧
  distTotalRating s.rating_distribution = distTotalRating t.rating_distribution ∧
  s.verified_purchase_count = t.verified_purchase_count ∧
  s.date_range = t.date_range

lemma statsEquiv_refl (s : ReviewStats) : statsEquiv s s :=
  ⟨rfl, rfl, fun _ => rfl, rfl, rfl, rfl⟩

lemma statsEquiv_trans {s t u : ReviewStats}
    (h1 : statsEquiv s t) (h2 : statsEquiv t u) : statsEquiv s u := by
  obtain ⟨a1, a2, a3, a4, a5, a6⟩ := h1
  obtain ⟨b1, b2, b3, b4, b5, b6⟩ := h2
  exact ⟨a1.trans b1, a2.trans b2, fun k => (a3 k).trans (b3 k), a4.trans b4,
    a5.trans b5, a6.trans b6⟩

lemma distCount_distInc (d : List (Nat × Nat)) (r k : Nat) :
    distCount (distInc d r) k = distCount d k + (if k = r then 1 else 0) := by
  induction d with
  | nil =>
    simp only [distInc, distCount]
    by_cases h : r = k
    · subst h
      simp
    · have hk : ¬ k = r := fun hh => h hh.symm
      simp [h, hk]
  | cons p t ih =>
    obtain ⟨a, v⟩ := p
    by_cases har : a = r
    · subst har
      simp only [distInc, if_pos rfl, distCount]
      by_cases hak : a = k
      · subst hak
        simp
      · have hka : ¬ k = a := fun hh => hak hh.symm
        simp [hak, hka]
    · simp only [distInc, if_neg har, distCount]
      by_cases hak : a = k
      · subst hak
        have hka : ¬ a = r := har
        simp [hka]
      · simp only [if_neg hak]
        exact ih

lemma distTotalRating_distInc (d : List (Nat × Nat)) (r : Nat) :
    distTotalRating (distInc d r) = distTotalRating d + r := by
  induction d with
  | nil => simp [distInc, distTotalRating]
  | cons p t ih =>
    obtain ⟨a, v⟩ := p
    by_cases h : a = r
    · simp only [distInc, if_pos h, distTotalRating]
      subst h
      rw [Nat.mul_succ]
      omega
    · simp only [distInc, if_neg h, distTotalRating]
      omega

lemma addReview_statsEquiv {s t : ReviewStats} (h : statsEquiv s t) (r : Review) :
    statsEquiv (s.add_review r) (t.add_review r) := by
  obtain ⟨h1, h2, h3, h4, h5, h6⟩ := h
  refine ⟨?_, ?_, ?_, ?_, ?_, ?_⟩ <;>
    simp only [ReviewStats.add_review]
  · rw [h1]
  · rw [distTotalRating_distInc, distTotalRating_distInc, h4, h1]
  · intro k
    rw [distCount_distInc, distCount_distInc, h3]
  · rw [distTotalRating_distInc, distTotalRating_distInc, h4]
  · rw [h5]
  · rw [h6]

lemma addReview_swap (s : ReviewStats) (a b : Review) :
    statsEquiv ((s.add_review a).add_review b) ((s.add_review b).add_review a) := by
  refine ⟨?_, ?_, ?_, ?_, ?_, ?_⟩
  · simp [ReviewStats.add_review]
  · simp only [ReviewStats.add_review]
    rw [distTotalRating_distInc, distTotalRating_distInc,
      distTotalRating_distInc, distTotalRating_distInc]
    rw [Nat.add_right_comm (distTotalRating s.rating_distribution) a.rating b.rating]
  · intro k
    simp only [ReviewStats.add_review]
    rw [distCount_distInc, distCount_distInc, distCount_distInc, distCount_distInc]
    omega
  · simp only [ReviewStats.add_review]
    rw [distTotalRating_distInc, distTotalRating_distInc,
      distTotalRating_distInc, distTotalRating_distInc]
    omega
  · simp only [ReviewStats.add_review]
    split_ifs <;> rfl
  · simp only [ReviewStats.add_review]
    cases hdr : s.date_range with
    | none =>
      simp only [Option.some.injEq, Prod.mk.injEq]
      constructor <;> split_ifs <;> omega
    | some p =>
      obtain ⟨e, l⟩ := p
      simp only [Option.some.injEq, Prod.mk.injEq]
      constructor <;> split_ifs <;> omega

lemma foldl_addReview_statsEquiv {s t : ReviewStats} (h : statsEquiv s t)
    (l : List Review) :
    statsEquiv (l.foldl ReviewStats.add_review s) (l.foldl ReviewStats.add_review t) := by
  induction l generalizing s t with
  | nil => exact h
  | cons r ts ih => exact ih (addReview_statsEquiv h r)

lemma perm_foldl_statsEquiv {l₁ l₂ : List Review} (p : l₁.Perm l₂) :
    ∀ s, statsEquiv (l₁.foldl ReviewStats.add_review s) (l₂.foldl ReviewStats.add_review s) := by
  induction p with
  | nil => exact fun s => statsEquiv_refl _
  | cons x p ih => exact fun s => ih (s.add_review x)
  | swap x y l => exact fun s => foldl_addReview_statsEquiv (addReview_swap s y x) l
  | trans p q ih1 ih2 => exact fun s => statsEquiv_trans (ih1 s) (ih2 s)

/-- C2: feeding any two permutations of the same multiset of reviews
one-at-a-time into `ReviewStats.add_review` (starting from a fresh
`ReviewStats`) produces the same final `average_rating`,
`rating_distribution` (as a key→count mapping, which is what Python dict
equality compares), `verified_purchase_count`, and `date_range`; and any
three reviews with ratings 5, 3, 4 — in that or any other order — yield final
average exactly 4. -/
theorem review_stats_order_invariant (l₁ l₂ : List Review) (p : l₁.Perm l₂) :
    (generateStats l₁).average_rating = (generateStats l₂).average_rating ∧
    (∀ k, distCount (generateStats l₁).rating_distribution k
        = distCount (generateStats l₂).rating_distribution k) ∧
    (generateStats l₁).verified_purchase_count
      = (generateStats l₂).verified_purchase_count ∧
    (generateStats l₁).date_range = (generateStats l₂).date_range ∧
    (∀ a b c : Review, a.rating = 5 → b.rating = 3 → c.rating = 4 →
      (generateStats [a, b, c]).average_rating = 4) := by
  have h := perm_foldl_statsEquiv p {}
  obtain ⟨_, h2, h3, _, h5, h6⟩ := h
  refine ⟨h2, h3, h5, h6, ?_⟩
  intro a b c ha hb hc
  simp [generateStats, ReviewStats.add_review, distInc, distTotalRating, ha, hb, hc]
  norm_num

/-- C2 witness: the invariance applied to a concrete three-review list and its
reversal. -/
theorem review_stats_order_invariant_witness :
    (generateStats mixedReviews).average_rating
      = (generateStats mixedReviews.reverse).average_rating :=
  (review_stats_order_invariant mixedReviews mixedReviews.reverse (by decide)).1

/-! Properties of first-occurrence de-duplication. -/

lemma mem_dedupFirstAux [DecidableEq α] (seen : List α) (l : List α) (x : α) :
    x ∈ dedupFirstAux seen l ↔ x ∈ l ∧ x ∉ seen := by
  induction l generalizing seen with
  | nil => simp [dedupFirstAux]
  | cons y t ih =>
    by_cases h : y ∈ seen
    · rw [dedupFirstAux, if_pos h, ih]
      constructor
      · rintro ⟨hx, hs⟩
        exact ⟨List.mem_cons_of_mem y hx, hs⟩
      · rintro ⟨hx, hs⟩
        rcases List.mem_cons.mp hx with rfl | hx2
        · exact absurd h hs
        · exact ⟨hx2, hs⟩
    · rw [dedupFirstAux, if_neg h]
      constructor
      · intro hx
        rcases List.mem_cons.mp hx with rfl | hx2
        · exact ⟨List.mem_cons_self x t, h⟩
        · obtain ⟨ht, hs⟩ := (ih (y :: seen)).mp hx2
          exact ⟨List.mem_cons_of_mem y ht, fun hmem => hs (List.mem_cons_of_mem y hmem)⟩
      · rintro ⟨hx, hs⟩
        rcases List.mem_cons.mp hx with rfl | hx2
        · exact List.mem_cons_self x _
        · by_cases hxy : x = y
          · subst hxy
            exact List.mem_cons_self x _
          · refine List.mem_cons_of_mem y ((ih (y :: seen)).mpr ⟨hx2, ?_⟩)
            intro hmem
            rcases List.mem_cons.mp hmem with h1 | h2
            · exact hxy h1
            · exact hs h2

lemma mem_dedupFirst [DecidableEq α] (l : List α) (x : α) :
    x ∈ dedupFirst l ↔ x ∈ l := by
  rw [dedupFirst, mem_dedupFirstAux]
  simp

lemma dedupFirstAux_sublist [DecidableEq α] (seen : List α) (l : List α) :
    (dedupFirstAux seen l).Sublist l := by
  induction l generalizing seen with
  | nil => simp [dedupFirstAux]
  | cons y t ih =>
    by_cases h : y ∈ seen
    · rw [dedupFirstAux, if_pos h]
      exact (ih seen).cons y
    · rw [dedupFirstAux, if_neg h]
      exact (ih (y :: seen)).cons₂ y

lemma dedupFirstAux_nodup [DecidableEq α] (seen : List α) (l : List α) :
    (dedupFirstAux seen l).Nodup := by
  induction l generalizing seen with
  | nil => simp [dedupFirstAux]
  | cons y t ih =>
    by_cases h : y ∈ seen
    · rw [dedupFirstAux, if_pos h]
      exact ih seen
    · rw [dedupFirstAux, if_neg h]
      refine List.Nodup.cons ?_ (ih (y :: seen))
      intro hmem
      exact ((mem_dedupFirstAux (y :: seen) t y).mp hmem).2 (List.mem_cons_self y seen)

lemma dedupFirst_nodup [DecidableEq α] (l : List α) : (dedupFirst l).Nodup :=
  dedupFirstAux_nodup [] l

lemma dedupFirst_sublist [DecidableEq α] (l : List α) : (dedupFirst l).Sublist l :=
  dedupFirstAux_sublist [] l

/-- C7 (amended): for every multi-row header (uniform row lengths assumed;
Python raises on ragged rows) and every column index, `deduplication_header`
builds the column's name from the column's values across the header rows in
order, de-duplicated by *first occurrence* (all repeats removed, not only
immediately-repeated ones), discarding blank/`Unnamed`-containing/`"nan"`
tokens, joined by `-`, with fallback `Column_<i>`; the two-row header
`["Region","Region"]` / `["North","South"]` yields `"Region-North"` for the
first column. -/
theorem header_dedup_firstocc (headerData : List (List String)) (colIdx : Nat)
    (hcol : colIdx < (headerData.headD []).length) :
    (newColumns headerData).length = (headerData.headD []).length ∧
    (∃ toks : List String,
      toks.Sublist (headerData.map (fun row => row.getD colIdx "")) ∧
      toks.Nodup ∧
      (∀ x, x ∈ toks ↔ x ∈ headerData.map (fun row => row.getD colIdx "")) ∧
      (newColumns headerData).getD colIdx "" =
        (if String.intercalate ("-") (toks.filter goodPart) = ""
         then "Column_" ++ toString colIdx
         else String.intercalate ("-") (toks.filter goodPart))) ∧
    newColumns [["Region", "Region"], ["North", "South"]]
      = ["Region-North", "Region-South"] := by
  refine ⟨?_, ?_, by decide⟩
  · unfold newColumns
    rw [List.length_map, List.length_range]
  · refine ⟨dedupFirst (headerData.map (fun row => row.getD colIdx "")),
      dedupFirst_sublist _, dedupFirst_nodup _, fun x => mem_dedupFirst _ x, ?_⟩
    have hval : (newColumns headerData).getD colIdx ""
        = buildColName (headerData.map (fun row => row.getD colIdx "")) colIdx := by
      unfold newColumns
      rw [List.getD_eq_getElem?_getD, List.getElem?_map, List.getElem?_range hcol]
      rfl
    rw [hval]
    rfl

/-- C7 witness: the amended description applied to the two-row example. -/
theorem header_dedup_firstocc_witness :
    newColumns [["Region", "Region"], ["North", "South"]]
      = ["Region-North", "Region-South"] :=
  (header_dedup_firstocc [["Region", "Region"], ["North", "South"]] 0 (by decide)).2.2

/-- C7 counterexample to the claim as stated: with the three header rows
`["Region"], ["North"], ["Region"]` the code removes the *non-adjacent* repeat
of `"Region"` (first-occurrence de-duplication) and produces `"Region-North"`,
whereas de-duplicating only immediately-repeated tokens, as the claim says,
would keep it and produce `"Region-North-Region"`. -/
theorem header_dedup_adjacent_counterexample :
    newColumns [["Region"], ["North"], ["Region"]] = ["Region-North"] ∧
    specAdjacentColName ["Region", "North", "Region"] 0 = "Region-North-Region" ∧
    ("Region-North" : String) ≠ "Region-North-Region" := by
  exact ⟨by decide, by decide, by decide⟩

/-! Sortedness of the stable sort model. -/

lemma insSorted_pairwise {le : α → α → Bool}
    (htrans : ∀ a b c, le a b = true → le b c = true → le a c = true)
    (htot : ∀ a b, le a b = true ∨ le b a = true)
    (x : α) (l : List α) (h : List.Pairwise (fun a b => le a b = true) l) :
    List.Pairwise (fun a b => le a b = true) (insSorted le x l) := by
  induction l with
  | nil => simp [insSorted]
  | cons y t ih =>
    obtain ⟨hy, ht⟩ := List.pairwise_cons.mp h
    by_cases hxy : le y x = true
    · rw [insSorted, if_pos hxy]
      refine List.pairwise_cons.mpr ⟨?_, ih ht⟩
      intro z hz
      have hz2 : z = x ∨ z ∈ t := by
        have := (insSorted_perm le x t).mem_iff.mp hz
        simpa using this
      rcases hz2 with rfl | hzt
      · exact hxy
      · exact hy z hzt
    · rw [insSorted, if_neg hxy]
      refine List.pairwise_cons.mpr ⟨?_, h⟩
      intro z hz
      rcases List.mem_cons.mp hz with rfl | hzt
      · exact (htot x z).resolve_right hxy
      · exact htrans x y z ((htot x y).resolve_right hxy) (hy z hzt)

lemma pySorted_pairwise {le : α → α → Bool}
    (htrans : ∀ a b c, le a b = true → le b c = true → le a c = true)
    (htot : ∀ a b, le a b = true ∨ le b a = true)
    (l : List α) :
    List.Pairwise (fun a b => le a b = true) (pySorted le l) := by
  induction l with
  | nil => simp [pySorted]
  | cons x t ih =>
    have : pySorted le (x :: t) = insSorted le x (pySorted le t) := rfl
    rw [this]
    exact insSorted_pairwise htrans htot x _ ih

/-! The citation-number pipeline of `generate_answer`. -/

lemma citationDetails_numbers (cites : List Nat) (docs : List RagDoc) :
    (citationDetails cites docs).map (fun cd => cd.citation_number)
      = cites.filter (fun c => decide (0 < c ∧ c ≤ docs.length)) := by
  induction cites with
  | nil => rfl
  | cons c t ih =>
    by_cases h : 0 < c ∧ c ≤ docs.length
    · rw [citationDetails, if_pos h]
      simp only [List.map_cons, ih, List.filter_cons]
      simp [h]
    · rw [citationDetails, if_neg h]
      simp only [ih, List.filter_cons]
      simp [h]

lemma mem_extractCitations (ans : String) (m : Nat) :
    m ∈ extractCitations ans ↔ ∃ s ∈ findMarkers ans, digitsToNat s = m := by
  unfold extractCitations
  rw [mem_pySorted, List.mem_map]
  constructor
  · rintro ⟨s, hs, rfl⟩
    exact ⟨s, (mem_dedupFirst _ s).mp hs, rfl⟩
  · rintro ⟨s, hs, rfl⟩
    exact ⟨s, (mem_dedupFirst _ s).mpr hs, rfl⟩

/-- C4: the citation list returned by `generate_answer`'s citation stage
contains one entry per distinct citation marker of the answer whose value `m`
satisfies `0 < m ≤ n` (n = number of retrieved documents), sorted ascending;
markers outside that range are silently dropped.  In particular an answer
citing `[1]`, `[2]` and `[7]` against 3 retrieved documents yields entries for
1 and 2 only; and on a successful LLM call the citations of the result are
exactly this stage applied to the LLM's answer. -/
theorem citation_extraction (ans : String) (docs : List RagDoc) :
    List.Pairwise (fun a b => a ≤ b)
      ((citationDetails (extractCitations ans) docs).map (fun cd => cd.citation_number)) ∧
    (∀ m : Nat,
      m ∈ (citationDetails (extractCitations ans) docs).map (fun cd => cd.citation_number) ↔
      ∃ s ∈ findMarkers ans, digitsToNat s = m ∧ 0 < m ∧ m ≤ docs.length) ∧
    (∀ m : Nat,
      ((citationDetails (extractCitations ans) docs).map (fun cd => cd.citation_number)).count m
        = ((dedupFirst (findMarkers ans)).filter
            (fun s => decide (digitsToNat s = m ∧ 0 < m ∧ m ≤ docs.length))).length) ∧
    ((citationDetails (extractCitations ("See [1] and [2]; also [7].")) [{}, {}, {}]).map
      (fun cd => cd.citation_number) = [1, 2]) ∧
    (∀ (q mdl : String), docs ≠ [] →
      (generate_answer (fun _ _ => Except.ok ans) q docs mdl).1.citations
        = citationDetails (extractCitations ans) docs) := by
  have hle_trans : ∀ a b c : Nat,
      decide (a ≤ b) = true → decide (b ≤ c) = true → decide (a ≤ c) = true := by
    intro a b c h1 h2
    simp only [decide_eq_true_eq] at h1 h2 ⊢
    omega
  have hle_tot : ∀ a b : Nat, decide (a ≤ b) = true ∨ decide (b ≤ a) = true := by
    intro a b
    simp only [decide_eq_true_eq]
    omega
  refine ⟨?_, ?_, ?_, by decide, ?_⟩
  · rw [citationDetails_numbers]
    have hsorted := pySorted_pairwise hle_trans hle_tot
      ((dedupFirst (findMarkers ans)).map digitsToNat)
    have hsub : List.Sublist
        ((extractCitations ans).filter (fun c => decide (0 < c ∧ c ≤ docs.length)))
        (extractCitations ans) :=
      List.filter_sublist _
    have := List.Pairwise.sublist hsub hsorted
    exact this.imp (by simp)
  · intro m
    rw [citationDetails_numbers, List.mem_filter]
    rw [mem_extractCitations]
    constructor
    · rintro ⟨⟨s, hs, rfl⟩, hrange⟩
      simp only [decide_eq_true_eq] at hrange
      exact ⟨s, hs, rfl, hrange⟩
    · rintro ⟨s, hs, rfl, hrange⟩
      exact ⟨⟨s, hs, rfl⟩, by simpa using hrange⟩
  · intro m
    rw [citationDetails_numbers]
    by_cases hp : 0 < m ∧ m ≤ docs.length
    · rw [List.count_filter (by simpa using hp)]
      have hperm : (extractCitations ans).Perm
          ((dedupFirst (findMarkers ans)).map digitsToNat) := pySorted_perm _ _
      rw [hperm.count_eq]
      rw [List.count, List.countP_map]
      rw [List.countP_eq_length_filter]
      congr 1
      apply List.filter_congr
      intro s _
      by_cases hd : digitsToNat s = m
      · simp [Function.comp, hd, hp.1, hp.2]
      · simp [Function.comp, hd]
    · have hzero : ((extractCitations ans).filter
          (fun c => decide (0 < c ∧ c ≤ docs.length))).count m = 0 := by
        rw [List.count_eq_zero]
        intro hmem
        have := (List.mem_filter.mp hmem).2
        simp only [decide_eq_true_eq] at this
        exact hp this
      rw [hzero]
      have hnil : (dedupFirst (findMarkers ans)).filter
          (fun s => decide (digitsToNat s = m ∧ 0 < m ∧ m ≤ docs.length)) = [] := by
        rw [List.filter_eq_nil_iff]
        intro s _
        simp only [decide_eq_true_eq, not_and]
        intro _ h1 h2
        exact hp ⟨h1, h2⟩
      rw [hnil]
      rfl
  · intro q mdl hne
    unfold generate_answer
    rw [if_neg (by simpa using hne)]

/-- C4 witness: the successful-LLM tie-in at a concrete answer and document
list. -/
theorem citation_extraction_witness :
    (generate_answer (fun _ _ => Except.ok ("See [1] and [2]; also [7]."))
        ("q") [{}, {}, {}] ("m")).1.citations
      = citationDetails (extractCitations ("See [1] and [2]; also [7].")) [{}, {}, {}] :=
  (citation_extraction ("See [1] and [2]; also [7].") [{}, {}, {}]).2.2.2.2
    ("q") ("m") (by decide)

/-! RRF score accounting for `hybrid_search_rrf`. -/

/-- The score recorded for document id `d` in a `scores` entry list. -/
def scoreOf (l : List ScoreEntry) (d : String) : Option ℚ :=
  (l.find? (fun e => decide (e.id = d))).map ScoreEntry.score

/-- Total `1/(k + rank)` contribution of one hit list to document id `d`. -/
def rrfContrib (k : ℚ) (d : String) (hits : List Hit) : ℚ :=
  ((hits.filter (fun h => decide (h.id = d))).map (fun h => 1 / (k + (h.rank : ℚ)))).sum

/-- The ids recorded in a `scores` entry list. -/
def entryIds (l : List ScoreEntry) : List String :=
  l.map ScoreEntry.id

lemma scoreOf_rrfAdd (k : ℚ) (h : Hit) (l : List ScoreEntry) (d : String) :
    scoreOf (rrfAdd k h l) d =
      if h.id = d then some ((scoreOf l d).getD 0 + 1 / (k + (h.rank : ℚ)))
      else scoreOf l d := by
  induction l with
  | nil =>
    by_cases hd : h.id = d
    · simp [rrfAdd, scoreOf, List.find?, hd]
    · simp [rrfAdd, scoreOf, List.find?, hd]
  | cons e t ih =>
    by_cases he : e.id = h.id
    · rw [rrfAdd, if_pos he]
      by_cases hd : h.id = d
      · have hed : e.id = d := he.trans hd
        rw [if_pos hd]
        unfold scoreOf
        rw [List.find?_cons_of_pos _ (by simpa using hed),
          List.find?_cons_of_pos _ (by simpa using hed)]
        simp
      · have hed : ¬ e.id = d := fun hh => hd (by rw [← he]; exact hh)
        rw [if_neg hd]
        unfold scoreOf
        rw [List.find?_cons_of_neg _ (by simpa using hed),
          List.find?_cons_of_neg _ (by simpa using hed)]
    · rw [rrfAdd, if_neg he]
      unfold scoreOf
      by_cases hed : e.id = d
      · have hd : ¬ h.id = d := fun hh => he (by rw [hed, hh])
        rw [if_neg hd]
        rw [List.find?_cons_of_pos _ (by simpa using hed),
          List.find?_cons_of_pos _ (by simpa using hed)]
      · rw [List.find?_cons_of_neg _ (by simpa using hed),
          List.find?_cons_of_neg _ (by simpa using hed)]
        exact ih

lemma scoreOf_rrfProcess_some (k : ℚ) {s : List ScoreEntry} {d : String} {q : ℚ}
    (h : scoreOf s d = some q) (hits : List Hit) :
    scoreOf (rrfProcess k s hits) d = some (q + rrfContrib k d hits) := by
  induction hits generalizing s q with
  | nil =>
    simp only [rrfProcess, List.foldl_nil, rrfContrib, List.filter_nil, List.map_nil,
      List.sum_nil, h]
    norm_num
  | cons hd2 t ih =>
    have hstep : rrfProcess k s (hd2 :: t) = rrfProcess k (rrfAdd k hd2 s) t := rfl
    rw [hstep]
    by_cases hid : hd2.id = d
    · have h2 : scoreOf (rrfAdd k hd2 s) d = some (q + 1 / (k + (hd2.rank : ℚ))) := by
        rw [scoreOf_rrfAdd, if_pos hid, h]
        rfl
      rw [ih h2]
      unfold rrfContrib
      rw [List.filter_cons_of_pos (by simpa using hid)]
      rw [List.map_cons, List.sum_cons]
      simp only [one_div]
      ring_nf
    · have h2 : scoreOf (rrfAdd k hd2 s) d = some q := by
        rw [scoreOf_rrfAdd, if_neg hid, h]
      rw [ih h2]
      unfold rrfContrib
      rw [List.filter_cons_of_neg (by simpa using hid)]

lemma scoreOf_rrfProcess_none {k : ℚ} {s : List ScoreEntry} {d : String}
    (h : scoreOf s d = none) (hits : List Hit) :
    scoreOf (rrfProcess k s hits) d =
      if hits.any (fun x => decide (x.id = d)) then some (rrfContrib k d hits)
      else none := by
  induction hits generalizing s with
  | nil => simpa [rrfProcess] using h
  | cons hd2 t ih =>
    have hstep : rrfProcess k s (hd2 :: t) = rrfProcess k (rrfAdd k hd2 s) t := rfl
    rw [hstep]
    by_cases hid : hd2.id = d
    · have h2 : scoreOf (rrfAdd k hd2 s) d = some (0 + 1 / (k + (hd2.rank : ℚ))) := by
        rw [scoreOf_rrfAdd, if_pos hid, h]
        rfl
      rw [scoreOf_rrfProcess_some k h2 t]
      rw [if_pos (by simp [List.any_cons, hid])]
      unfold rrfContrib
      rw [List.filter_cons_of_pos (by simpa using hid)]
      rw [List.map_cons, List.sum_cons]
      simp only [one_div]
      ring_nf
    · have h2 : scoreOf (rrfAdd k hd2 s) d = none := by
        rw [scoreOf_rrfAdd, if_neg hid, h]
      rw [ih h2]
      have hany : (hd2 :: t).any (fun x => decide (x.id = d)) = t.any (fun x => decide (x.id = d)) := by
        simp [List.any_cons, hid]
      rw [hany]
      unfold rrfContrib
      rw [List.filter_cons_of_neg (by simpa using hid)]

lemma mem_entryIds_rrfAdd (k : ℚ) (h : Hit) (l : List ScoreEntry) (x : String) :
    x ∈ entryIds (rrfAdd k h l) ↔ x ∈ entryIds l ∨ x = h.id := by
  induction l with
  | nil => simp [rrfAdd, entryIds]
  | cons e t ih =>
    by_cases he : e.id = h.id
    · rw [rrfAdd, if_pos he]
      simp only [entryIds, List.map_cons, List.mem_cons]
      constructor
      · rintro (hx | hx)
        · exact Or.inl (Or.inl (by simpa using hx))
        · exact Or.inl (Or.inr hx)
      · rintro ((hx | hx) | hx)
        · exact Or.inl (by simpa using hx)
        · exact Or.inr hx
        · exact Or.inl (by rw [hx, ← he])
    · rw [rrfAdd, if_neg he]
      simp only [entryIds, List.map_cons, List.mem_cons] at ih ⊢
      rw [ih]
      tauto

lemma nodup_entryIds_rrfAdd (k : ℚ) (h : Hit) (l : List ScoreEntry)
    (hnd : (entryIds l).Nodup) : (entryIds (rrfAdd k h l)).Nodup := by
  induction l with
  | nil => simp [rrfAdd, entryIds]
  | cons e t ih =>
    simp only [entryIds, List.map_cons, List.nodup_cons] at hnd
    obtain ⟨hmem, hnd2⟩ := hnd
    by_cases he : e.id = h.id
    · rw [rrfAdd, if_pos he]
      simp only [entryIds, List.map_cons, List.nodup_cons]
      exact ⟨by simpa using hmem, hnd2⟩
    · rw [rrfAdd, if_neg he]
      simp only [entryIds, List.map_cons, List.nodup_cons]
      refine ⟨?_, ih hnd2⟩
      intro hx
      rcases (mem_entryIds_rrfAdd k h t e.id).mp hx with hx2 | hx2
      · exact hmem (by simpa [entryIds] using hx2)
      · exact he hx2

lemma nodup_entryIds_rrfProcess (k : ℚ) (s : List ScoreEntry) (hits : List Hit)
    (hnd : (entryIds s).Nodup) : (entryIds (rrfProcess k s hits)).Nodup := by
  induction hits generalizing s with
  | nil => exact hnd
  | cons hd2 t ih => exact ih _ (nodup_entryIds_rrfAdd k hd2 s hnd)

lemma filter_map_score_of_scoreOf {l : List ScoreEntry} {d : String} {q : ℚ}
    (hnd : (entryIds l).Nodup) (h : scoreOf l d = some q) :
    (l.filter (fun e => decide (e.id = d))).map ScoreEntry.score = [q] := by
  induction l with
  | nil => simp [scoreOf] at h
  | cons e t ih =>
    simp only [entryIds, List.map_cons, List.nodup_cons] at hnd
    obtain ⟨hmem, hnd2⟩ := hnd
    by_cases hed : e.id = d
    · unfold scoreOf at h
      rw [List.find?_cons_of_pos _ (by simpa using hed)] at h
      rw [Option.map_some'] at h
      replace h := Option.some.inj h
      have htail : t.filter (fun e => decide (e.id = d)) = [] := by
        rw [List.filter_eq_nil_iff]
        intro e2 he2
        simp only [decide_eq_true_eq]
        intro he2d
        exact hmem (by
          simp only [entryIds, List.mem_map]
          exact ⟨e2, he2, by rw [he2d, hed]⟩)
      rw [List.filter_cons_of_pos (by simpa using hed), htail]
      simp [h]
    · unfold scoreOf at h
      rw [List.find?_cons_of_neg _ (by simpa using hed)] at h
      rw [List.filter_cons_of_neg (by simpa using hed)]
      exact ih hnd2 h

lemma scoreOf_none_forall {l : List ScoreEntry} {d : String}
    (h : scoreOf l d = none) : ∀ e ∈ l, e.id ≠ d := by
  intro e he hed
  unfold scoreOf at h
  rw [Option.map_eq_none'] at h
  have := List.find?_eq_none.mp h e he
  simp [hed] at this

lemma rrfFormat_filter_scores (l : List ScoreEntry) (i : Nat) (d : String) :
    ((rrfFormat l i).filter (fun x => decide (x.id = d))).map RRFResult.rrf_score
      = (l.filter (fun e => decide (e.id = d))).map ScoreEntry.score := by
  induction l generalizing i with
  | nil => rfl
  | cons e t ih =>
    by_cases hed : e.id = d
    · rw [rrfFormat]
      rw [List.filter_cons_of_pos (by simpa using hed),
        List.filter_cons_of_pos (by simpa using hed)]
      rw [List.map_cons, List.map_cons, ih (i+1)]
    · rw [rrfFormat]
      rw [List.filter_cons_of_neg (by simpa using hed),
        List.filter_cons_of_neg (by simpa using hed)]
      exact ih (i+1)

lemma mem_rrfFormat {x : RRFResult} {l : List ScoreEntry} {i : Nat}
    (h : x ∈ rrfFormat l i) : ∃ e ∈ l, x.id = e.id := by
  induction l generalizing i with
  | nil => simp [rrfFormat] at h
  | cons e t ih =>
    rw [rrfFormat] at h
    rcases List.mem_cons.mp h with rfl | h2
    · exact ⟨e, List.mem_cons_self e t, rfl⟩
    · obtain ⟨e2, he2, hid⟩ := ih h2
      exact ⟨e2, List.mem_cons_of_mem e he2, hid⟩

lemma clean_filter_scores (l : List ScoreEntry) (d : String) :
    ((l.map (fun e => { e with text := String.mk (stripTimestamps e.text.data) })).filter
      (fun e => decide (e.id = d))).map ScoreEntry.score
      = (l.filter (fun e => decide (e.id = d))).map ScoreEntry.score := by
  induction l with
  | nil => rfl
  | cons e t ih =>
    by_cases hed : e.id = d
    · rw [List.map_cons]
      rw [List.filter_cons_of_pos (by simpa using hed),
        List.filter_cons_of_pos (by simpa using hed)]
      rw [List.map_cons, List.map_cons, ih]
    · rw [List.map_cons]
      rw [List.filter_cons_of_neg (by simpa using hed),
        List.filter_cons_of_neg (by simpa using hed)]
      exact ih

lemma hybrid_filter_scores {kw vec : List Hit} {k : ℚ} {d : String} {q : ℚ}
    (h : scoreOf (rrfProcess k (rrfProcess k [] kw) vec) d = some q) :
    ((hybrid_search_rrf kw vec k).filter (fun e => decide (e.id = d))).map
      RRFResult.rrf_score = [q] := by
  have hnd : (entryIds (rrfProcess k (rrfProcess k [] kw) vec)).Nodup :=
    nodup_entryIds_rrfProcess _ _ _
      (nodup_entryIds_rrfProcess _ _ _ (by simp [entryIds]))
  have h1 := filter_map_score_of_scoreOf hnd h
  have hp := ((pySorted_perm (fun a b => decide (b.score ≤ a.score))
    (rrfProcess k (rrfProcess k [] kw) vec)).filter
      (fun e => decide (e.id = d))).map ScoreEntry.score
  rw [h1] at hp
  have hperm := List.perm_singleton.mp hp
  show ((rrfFormat ((pySorted (fun a b => decide (b.score ≤ a.score))
      (rrfProcess k (rrfProcess k [] kw) vec)).map
      (fun e => { e with text := String.mk (stripTimestamps e.text.data) })) 0).filter
      (fun e => decide (e.id = d))).map RRFResult.rrf_score = [q]
  rw [rrfFormat_filter_scores, clean_filter_scores, hperm]

lemma hybrid_not_mem {kw vec : List Hit} {k : ℚ} {d : String}
    (h : scoreOf (rrfProcess k (rrfProcess k [] kw) vec) d = none) :
    ∀ e ∈ hybrid_search_rrf kw vec k, e.id ≠ d := by
  intro e he hed
  have hall := scoreOf_none_forall h
  have he2 : e ∈ rrfFormat ((pySorted (fun a b => decide (b.score ≤ a.score))
      (rrfProcess k (rrfProcess k [] kw) vec)).map
      (fun e => { e with text := String.mk (stripTimestamps e.text.data) })) 0 := he
  obtain ⟨e2, hmem2, hid2⟩ := mem_rrfFormat he2
  obtain ⟨e3, hmem3, rfl⟩ := List.mem_map.mp hmem2
  have he4 : e3 ∈ rrfProcess k (rrfProcess k [] kw) vec := mem_pySorted.mp hmem3
  have hid3 : e.id = e3.id := hid2
  apply hall e3 he4
  rw [← hid3]
  exact hed

lemma rrfContrib_of_rank_one (k : ℚ) {l : List Hit} {d : String}
    (h : (l.filter (fun x => decide (x.id = d))).map Hit.rank = [1]) :
    rrfContrib k d l = 1 / (k + 1) ∧ l.any (fun x => decide (x.id = d)) = true := by
  cases hf : l.filter (fun x => decide (x.id = d)) with
  | nil =>
    rw [hf] at h
    simp at h
  | cons a t =>
    rw [hf, List.map_cons] at h
    simp only [List.cons.injEq] at h
    obtain ⟨h1, h2⟩ := h
    have ht : t = [] := List.map_eq_nil_iff.mp h2
    subst ht
    constructor
    · unfold rrfContrib
      rw [hf]
      simp [h1]
    · rw [List.any_eq_true]
      have hmem : a ∈ l.filter (fun x => decide (x.id = d)) := by
        rw [hf]
        exact List.mem_cons_self a []
      obtain ⟨ha, hpa⟩ := List.mem_filter.mp hmem
      exact ⟨a, ha, hpa⟩

lemma rrfContrib_of_absent (k : ℚ) {l : List Hit} {d : String}
    (h : ∀ x ∈ l, x.id ≠ d) :
    rrfContrib k d l = 0 ∧ l.any (fun x => decide (x.id = d)) = false := by
  have hf : l.filter (fun x => decide (x.id = d)) = [] := by
    rw [List.filter_eq_nil_iff]
    intro a ha
    simpa using h a ha
  constructor
  · unfold rrfContrib
    rw [hf]
    rfl
  · rw [List.any_eq_false]
    intro x hx
    simpa using h x hx

/-- C3: in `hybrid_search_rrf` with the default `k = RRF_K = 60`, a document
ranked 1st in the keyword list and absent from the vector list gets combined
score exactly `1/(60+1)`; a document ranked 1st in both lists gets exactly
`1/(60+1) + 1/(60+1)`; and a document in neither input list does not appear in
the fused output. -/
theorem rrf_scores (kw vec : List Hit) (d : String) :
    (((kw.filter (fun x => decide (x.id = d))).map Hit.rank = [1]) →
      (∀ x ∈ vec, x.id ≠ d) →
      ((hybrid_search_rrf kw vec RRF_K).filter (fun e => decide (e.id = d))).map
        RRFResult.rrf_score = [1 / (60 + 1)]) ∧
    (((kw.filter (fun x => decide (x.id = d))).map Hit.rank = [1]) →
      ((vec.filter (fun x => decide (x.id = d))).map Hit.rank = [1]) →
      ((hybrid_search_rrf kw vec RRF_K).filter (fun e => decide (e.id = d))).map
        RRFResult.rrf_score = [1 / (60 + 1) + 1 / (60 + 1)]) ∧
    ((∀ x ∈ kw, x.id ≠ d) → (∀ x ∈ vec, x.id ≠ d) →
      ∀ e ∈ hybrid_search_rrf kw vec RRF_K, e.id ≠ d) := by
  have h0 : scoreOf [] d = none := rfl
  refine ⟨?_, ?_, ?_⟩
  · intro hk hv
    obtain ⟨hc, ha⟩ := rrfContrib_of_rank_one RRF_K hk
    obtain ⟨hcv, hav⟩ := rrfContrib_of_absent RRF_K hv
    have h1 : scoreOf (rrfProcess RRF_K [] kw) d = some (rrfContrib RRF_K d kw) := by
      rw [scoreOf_rrfProcess_none h0 kw, if_pos ha]
    have h2 := scoreOf_rrfProcess_some RRF_K h1 vec
    rw [hc, hcv] at h2
    have h3 := hybrid_filter_scores h2
    have hq : (1 : ℚ) / (RRF_K + 1) + 0 = 1 / (60 + 1) := by
      norm_num [RRF_K]
    rw [hq] at h3
    exact h3
  · intro hk hv
    obtain ⟨hc, ha⟩ := rrfContrib_of_rank_one RRF_K hk
    obtain ⟨hcv, hav⟩ := rrfContrib_of_rank_one RRF_K hv
    have h1 : scoreOf (rrfProcess RRF_K [] kw) d = some (rrfContrib RRF_K d kw) := by
      rw [scoreOf_rrfProcess_none h0 kw, if_pos ha]
    have h2 := scoreOf_rrfProcess_some RRF_K h1 vec
    rw [hc, hcv] at h2
    have h3 := hybrid_filter_scores h2
    have hq : (1 : ℚ) / (RRF_K + 1) + 1 / (RRF_K + 1) = 1 / (60 + 1) + 1 / (60 + 1) := by
      norm_num [RRF_K]
    rw [hq] at h3
    exact h3
  · intro hk hv
    obtain ⟨_, hak⟩ := rrfContrib_of_absent RRF_K hk
    obtain ⟨_, hav⟩ := rrfContrib_of_absent RRF_K hv
    have h1 : scoreOf (rrfProcess RRF_K [] kw) d = none := by
      rw [scoreOf_rrfProcess_none h0 kw, if_neg (by simp [hak])]
    have h2 : scoreOf (rrfProcess RRF_K (rrfProcess RRF_K [] kw) vec) d = none := by
      rw [scoreOf_rrfProcess_none h1 vec, if_neg (by simp [hav])]
    exact hybrid_not_mem h2

/-- Concrete keyword hits for the C3 witness: `doc1` ranked 1st, `doc2` 2nd. -/
def kwHitsEx : List Hit :=
  [{ id := "doc1", text := "alpha", doc_type := "text", page_num := 1,
     metadata := "m1", rank := 1, score := 7 },
   { id := "doc2", text := "beta", doc_type := "text", page_num := 2,
     metadata := "m2", rank := 2, score := 5 }]

/-- Concrete vector hits for the C3 witness: only `doc2`, ranked 1st. -/
def vecHitsEx : List Hit :=
  [{ id := "doc2", text := "beta", doc_type := "text", page_num := 2,
     metadata := "m2", rank := 1, score := 9 }]

/-- C3 witness: `doc1` is keyword-only with rank 1, so its fused score is
`1/(60+1)`. -/
theorem rrf_scores_witness :
    ((hybrid_search_rrf kwHitsEx vecHitsEx RRF_K).filter
      (fun e => decide (e.id = "doc1"))).map RRFResult.rrf_score = [1 / (60 + 1)] :=
  (rrf_scores kwHitsEx vecHitsEx "doc1").1 (by decide) (by decide)
